import Mathlib

/-!
Shallow embedding of `src/game_of_life/gol.c` (Conway's Game of Life on a
toroidal grid) and verification of the specification's claims about it.

Modelling conventions:
* C `int` values are modelled as `Int`; C's `%` on `int` is truncated
  remainder, modelled by `Int.tmod`.
* The flat `int *` cell buffers are modelled as total functions `Int → Int`
  (an array store); a store write is `awrite`.  Freshly `malloc`ed memory has
  indeterminate contents, modelled by an arbitrary function parameter.
* The global counter `total_live` is threaded explicitly through the
  functions that read or write it.
* File I/O in `init_game_data_from_args` is abstracted by handing the
  function the integers the `fscanf` calls successfully read (the dimensions,
  iteration count, declared live-cell count and the coordinate pairs);
  everything the function does with those values is embedded faithfully.
  Terminal/visualisation output (`print_board`, `update_color`, `usleep`,
  ParaVis calls) does not touch the simulation state and is omitted.
-/

/-- Array store: write value `v` at index `i` of buffer `a`. -/
def awrite (a : Int → Int) (i v : Int) : Int → Int :=
  fun x => if x = i then v else a x

/-- The double-modulo normalisation used by `count_neighbors`:
`((v % m) + m) % m` with C's truncated `%`. -/
def wrap_mod (v m : Int) : Int :=
  ((v.tmod m) + m).tmod m

/-- The `gol_data` struct (simulation-relevant fields; the ParaVis handle and
image buffer only affect rendering and are omitted). -/
structure gol_data where
  rows : Int
  cols : Int
  iters : Int
  output_mode : Int
  cells : Int → Int
  current_round : Int

/-- `count_neighbors(data, i, j)`: scan the whole 3×3 toroidally wrapped
block around `(i, j)` (center included) and count cells equal to 1.
`index_neighbor = (((((i+l) % rows) + rows) % rows) * cols) +
((((j+k) % cols) + cols) % cols)`. -/
def count_neighbors (data : gol_data) (i j : Int) : Int :=
  List.foldl
    (fun neighbors l =>
      List.foldl
        (fun neighbors k =>
          if data.cells (wrap_mod (i + l) data.rows * data.cols +
              wrap_mod (j + k) data.cols) = 1 then
            neighbors + 1
          else neighbors)
        neighbors ([-1, 0, 1] : List Int))
    0 ([-1, 0, 1] : List Int)

/-- `update_world(data, array, neighbors, i, j)`: write the next state of
cell `(i, j)` into `array` and bump `total_live` when the cell comes out
alive.  The C sequence is: `array[idx] = 0`; if the cell is alive and has 2
neighbors, or alive and 3 neighbors, or dead and 3 neighbors, set
`array[idx] = 1` and increment `total_live`. -/
def update_world (data : gol_data) (array : Int → Int) (total_live : Int)
    (neighbors i j : Int) : (Int → Int) × Int :=
  let idx := i * data.cols + j
  let temp_cell := data.cells idx
  let st0 := (awrite array idx 0, total_live)
  let st1 :=
    if temp_cell = 1 then
      let st2 := if neighbors = 2 then (awrite st0.1 idx 1, st0.2 + 1) else st0
      if neighbors = 3 then (awrite st2.1 idx 1, st2.2 + 1) else st2
    else st0
  if temp_cell = 0 then
    if neighbors = 3 then (awrite st1.1 idx 1, st1.2 + 1) else st1
  else st1

/-- The value `update_world` ends up storing for a cell whose current state
is `temp_cell` and whose (self-subtracted) neighbor count is `neighbors`. -/
def update_val (temp_cell neighbors : Int) : Int :=
  if temp_cell = 1 ∧ (neighbors = 2 ∨ neighbors = 3) then 1
  else if temp_cell = 0 ∧ neighbors = 3 then 1
  else 0

/-- The next state of cell `(i, j)` as computed by one iteration of
`play_gol`'s inner loop: count the 3×3 block, subtract the cell's own state,
and apply `update_world`'s rule.  A function of the current buffer only. -/
def next_cell (data : gol_data) (i j : Int) : Int :=
  update_val (data.cells (i * data.cols + j))
    (count_neighbors data i j - data.cells (i * data.cols + j))

/-- The inner `for (j = 0; j < data->cols; j++)` loop of `play_gol`, starting
at column `j` with `fuel` iterations left, threading the `new_world` buffer
and the `total_live` counter. -/
def cols_loop (data : gol_data) (i : Int) (j : Int) (fuel : Nat)
    (new_world : Int → Int) (total_live : Int) : (Int → Int) × Int :=
  match fuel with
  | 0 => (new_world, total_live)
  | fuel + 1 =>
    let neighbors := count_neighbors data i j
    let temp_cell := data.cells (i * data.cols + j)
    let st := update_world data new_world total_live (neighbors - temp_cell) i j
    cols_loop data i (j + 1) fuel st.1 st.2

/-- The outer `for (i = 0; i < data->rows; i++)` loop of `play_gol`. -/
def rows_loop (data : gol_data) (i : Int) (fuel : Nat)
    (new_world : Int → Int) (total_live : Int) : (Int → Int) × Int :=
  match fuel with
  | 0 => (new_world, total_live)
  | fuel + 1 =>
    let st := cols_loop data i 0 data.cols.toNat new_world total_live
    rows_loop data (i + 1) fuel st.1 st.2

/-- The state carried across rounds by `play_gol`: the `gol_data` struct,
the spare `new_world` buffer (malloc'ed before the loop, then the previous
generation's buffer after each swap) and the global `total_live`. -/
structure play_state where
  data : gol_data
  new_world : Int → Int
  total_live : Int

/-- One iteration of `play_gol`'s round loop: reset `total_live` to 0, run
the per-cell pass into `new_world`, swap the two buffers by pointer
exchange, and increment `current_round`. -/
def gol_round (s : play_state) : play_state :=
  let st := rows_loop s.data 0 s.data.rows.toNat s.new_world 0
  { data := { s.data with cells := st.1, current_round := s.data.current_round + 1 },
    new_world := s.data.cells,
    total_live := st.2 }

/-- `for (k = 0; k < data->iters; k++)` with `n` iterations left. -/
def play_iters (n : Nat) (s : play_state) : play_state :=
  match n with
  | 0 => s
  | n + 1 => play_iters n (gol_round s)

/-- `play_gol`: run the round loop `iters` times (a non-positive `iters`
runs zero rounds, exactly as the C `for` loop does). -/
def play_gol (s : play_state) : play_state :=
  play_iters s.data.iters.toNat s

/-- `init_game_data_from_args`, with file I/O abstracted: `output_mode` is
`atoi(argv[2])`; `rows`, `cols`, `iters` and `file_total_live` are the four
integers read from the file header; `coords` are the coordinate pairs read
by the seeding loop; `mem` is the indeterminate content of the `malloc`ed
buffer.  Returns the initialised struct, the value of the global
`total_live`, and the C return code (0 = success): given that every file
operation succeeds, the function performs no validation whatsoever and
always returns 0. -/
def init_game_data_from_args (output_mode rows cols iters file_total_live : Int)
    (coords : List (Int × Int)) (mem : Int → Int) : gol_data × Int × Int :=
  let num_cells := rows * cols
  let cells0 := (List.range num_cells.toNat).foldl
    (fun c i => awrite c (Int.ofNat i) 0) mem
  let cells1 := (coords.take file_total_live.toNat).foldl
    (fun c p => awrite c (p.1 * cols + p.2) 1) cells0
  ({ rows := rows, cols := cols, iters := iters, output_mode := output_mode,
     cells := cells1, current_round := 0 },
   file_total_live, 0)

/-- The number of alive cells actually present in the grid: the count of
indices in `[0, rows*cols)` whose cell value is 1 (as an `Int`, to compare
with the `total_live` counter). -/
def live_cell_count (d : gol_data) : Int :=
  Int.ofNat (((Finset.range (d.rows * d.cols).toNat).filter
    (fun x => d.cells (Int.ofNat x) = 1)).card)

/-! ### Helper lemmas: array stores and the wrap arithmetic -/

theorem awrite_same (a : Int → Int) (i v : Int) : awrite a i v i = v := by
  simp [awrite]

theorem awrite_other (a : Int → Int) {i x : Int} (v : Int) (h : x ≠ i) :
    awrite a i v x = a x := by
  simp [awrite, h]

theorem awrite_awrite (a : Int → Int) (i v w : Int) :
    awrite (awrite a i v) i w = awrite a i w := by
  funext x
  by_cases h : x = i <;> simp [awrite, h]

theorem neg_lt_tmod (a : Int) {b : Int} (hb : 0 < b) : -b < a.tmod b := by
  cases a with
  | ofNat m =>
    have h := Int.tmod_nonneg b (show (0:Int) ≤ Int.ofNat m from Int.ofNat_nonneg m)
    omega
  | negSucc m =>
    obtain ⟨n, rfl⟩ : ∃ n : Nat, b = Int.ofNat (n+1) := by
      cases b with
      | ofNat k =>
        cases k with
        | zero => exact absurd hb (by decide)
        | succ n => exact ⟨n, rfl⟩
      | negSucc k =>
        have := Int.negSucc_lt_zero k
        omega
    have h1 : Int.tmod (Int.negSucc m) (Int.ofNat (n+1)) =
        -(Int.ofNat ((m+1) % (n+1))) := rfl
    rw [h1]
    have h2 : (m+1) % (n+1) < n+1 := Nat.mod_lt (m+1) (by omega)
    simp only [Int.ofNat_eq_coe]
    omega

/-- The double-modulo normalisation computes the Euclidean (always
nonnegative) remainder, whatever the sign of `v`. -/
theorem wrap_mod_eq_emod (v : Int) {m : Int} (hm : 0 < m) :
    wrap_mod v m = v % m := by
  unfold wrap_mod
  have h1 : (0:Int) ≤ v.tmod m + m := by
    have := neg_lt_tmod v hm
    omega
  rw [Int.tmod_eq_emod h1 (le_of_lt hm)]
  rw [Int.add_emod_self]
  rw [Int.tmod_def, Int.sub_eq_add_neg, Int.add_neg_mul_emod_self_left]

theorem wrap_mod_range (v : Int) {m : Int} (hm : 0 < m) :
    0 ≤ wrap_mod v m ∧ wrap_mod v m < m := by
  rw [wrap_mod_eq_emod v hm]
  exact ⟨Int.emod_nonneg v (by omega), Int.emod_lt_of_pos v hm⟩

theorem wrap_mod_self {v m : Int} (h0 : 0 ≤ v) (h1 : v < m) :
    wrap_mod v m = v := by
  rw [wrap_mod_eq_emod v (by omega), Int.emod_eq_of_lt h0 h1]

/-- Row-major flat indices of in-range coordinates stay in `[0, rows*cols)`. -/
theorem flat_idx_range {rows cols i j : Int} (hi0 : 0 ≤ i) (hi1 : i < rows)
    (hj0 : 0 ≤ j) (hj1 : j < cols) :
    0 ≤ i * cols + j ∧ i * cols + j < rows * cols := by
  constructor
  · have : 0 ≤ i * cols := mul_nonneg hi0 (by omega)
    omega
  · have h1 : i * cols ≤ (rows - 1) * cols :=
      mul_le_mul_of_nonneg_right (by omega) (by omega)
    have h2 : (rows - 1) * cols = rows * cols - cols := by ring
    omega

/-- Row-major flat indexing is injective on in-range coordinates. -/
theorem flat_idx_inj {cols i j i' j' : Int} (hj0 : 0 ≤ j) (hj1 : j < cols)
    (hj0' : 0 ≤ j') (hj1' : j' < cols)
    (h : i * cols + j = i' * cols + j') : i = i' ∧ j = j' := by
  have hd : (i - i') * cols = j' - j := by ring_nf; linarith
  have hcases : i = i' ∨ i ≤ i' - 1 ∨ i' ≤ i - 1 := by omega
  rcases hcases with h1 | h1 | h1
  · constructor
    · exact h1
    · subst h1; omega
  · exfalso
    have : (i - i') * cols ≤ (-1) * cols :=
      mul_le_mul_of_nonneg_right (by omega) (by omega)
    omega
  · exfalso
    have : (1 : Int) * cols ≤ (i - i') * cols :=
      mul_le_mul_of_nonneg_right (by omega) (by omega)
    omega

/-- Every flat index in `[0, rows*cols)` decomposes as an in-range
row-major pair. -/
theorem flat_idx_decomp {rows cols x : Int} (hc : 0 < cols) (hx0 : 0 ≤ x)
    (hx1 : x < rows * cols) :
    ∃ i j, 0 ≤ i ∧ i < rows ∧ 0 ≤ j ∧ j < cols ∧ x = i * cols + j := by
  refine ⟨x / cols, x % cols, ?_, ?_, ?_, ?_, ?_⟩
  · exact Int.ediv_nonneg hx0 (by omega)
  · have := Int.lt_ediv_add_one_mul_self x hc
    by_contra hcon
    push_neg at hcon
    have h2 : rows * cols ≤ (x / cols) * cols :=
      mul_le_mul_of_nonneg_right hcon (by omega)
    have h3 : x / cols * cols ≤ x := Int.ediv_mul_le x (by omega)
    omega
  · exact Int.emod_nonneg x (by omega)
  · exact Int.emod_lt_of_pos x hc
  · have h := Int.ediv_add_emod x cols
    have h2 : cols * (x / cols) = x / cols * cols := by ring
    omega

/-- Spec §4.2 `next_state`, written from the spec's truth table: alive with
2 or 3 live neighbors stays alive, alive otherwise dies, dead with exactly 3
becomes alive, dead otherwise stays dead. -/
def next_state_spec (current_state live_neighbors : Int) : Int :=
  if current_state = 1 then
    if live_neighbors = 2 ∨ live_neighbors = 3 then 1 else 0
  else
    if live_neighbors = 3 then 1 else 0

/-- Spec §4.1/§4.2 `count_live_neighbors`, written from the spec's words:
the number of alive cells among the 8 toroidally-wrapped neighbors (offsets
(−1..1, −1..1) excluding (0,0)). -/
def count_live_neighbors_spec (d : gol_data) (i j : Int) : Int :=
  (([(-1, -1), (-1, 0), (-1, 1), (0, -1), (0, 1), (1, -1), (1, 0), (1, 1)] :
      List (Int × Int)).map
    (fun p =>
      if d.cells (wrap_mod (i + p.1) d.rows * d.cols +
          wrap_mod (j + p.2) d.cols) = 1 then (1 : Int) else 0)).sum

/-! ### Characterising `update_world` and `count_neighbors` -/

/-- `update_world` stores `update_val` at the cell's flat index and adds the
same value to `total_live` (it increments exactly when it stores a 1). -/
theorem update_world_eq (data : gol_data) (array : Int → Int) (total_live : Int)
    (neighbors i j : Int) :
    update_world data array total_live neighbors i j =
      (awrite array (i * data.cols + j)
        (update_val (data.cells (i * data.cols + j)) neighbors),
       total_live + update_val (data.cells (i * data.cols + j)) neighbors) := by
  unfold update_world update_val
  by_cases h1 : data.cells (i * data.cols + j) = 1 <;>
    by_cases h0 : data.cells (i * data.cols + j) = 0 <;>
    by_cases h2 : neighbors = 2 <;>
    by_cases h3 : neighbors = 3 <;>
    simp [h1, h0, h2, h3, awrite_awrite]

/-- The value `update_world` stores is always 0 or 1. -/
theorem update_val_cases (temp_cell neighbors : Int) :
    update_val temp_cell neighbors = 0 ∨ update_val temp_cell neighbors = 1 := by
  unfold update_val
  split
  · right; rfl
  · split
    · right; rfl
    · left; rfl

/-- One term of the 3×3 scan: 1 when the toroidally wrapped cell at offset
`(l, k)` from `(i, j)` is alive, 0 otherwise. -/
def nb_ind (d : gol_data) (i j l k : Int) : Int :=
  if d.cells (wrap_mod (i + l) d.rows * d.cols + wrap_mod (j + k) d.cols) = 1
  then 1 else 0

theorem count_neighbors_expand (d : gol_data) (i j : Int) :
    count_neighbors d i j =
      nb_ind d i j (-1) (-1) + nb_ind d i j (-1) 0 + nb_ind d i j (-1) 1 +
      nb_ind d i j 0 (-1) + nb_ind d i j 0 0 + nb_ind d i j 0 1 +
      nb_ind d i j 1 (-1) + nb_ind d i j 1 0 + nb_ind d i j 1 1 := by
  have h : ∀ (c : Prop) [Decidable c] (a : Int),
      (if c then a + 1 else a) = a + (if c then 1 else 0) := by
    intro c _ a
    split <;> simp
  unfold count_neighbors nb_ind
  simp only [List.foldl_cons, List.foldl_nil, h]
  ring

theorem count_live_neighbors_spec_expand (d : gol_data) (i j : Int) :
    count_live_neighbors_spec d i j =
      nb_ind d i j (-1) (-1) + nb_ind d i j (-1) 0 + nb_ind d i j (-1) 1 +
      nb_ind d i j 0 (-1) + nb_ind d i j 0 1 +
      nb_ind d i j 1 (-1) + nb_ind d i j 1 0 + nb_ind d i j 1 1 := by
  unfold count_live_neighbors_spec nb_ind
  simp only [List.map_cons, List.map_nil, List.sum_cons, List.sum_nil]
  ring

theorem nb_ind_bounds (d : gol_data) (i j l k : Int) :
    0 ≤ nb_ind d i j l k ∧ nb_ind d i j l k ≤ 1 := by
  unfold nb_ind
  split <;> omega

/-- The center term of the 3×3 scan is the cell's own state (for a 0/1-valued
cell at in-range coordinates). -/
theorem nb_ind_center (d : gol_data) {i j : Int}
    (hi0 : 0 ≤ i) (hi1 : i < d.rows) (hj0 : 0 ≤ j) (hj1 : j < d.cols)
    (hcell : d.cells (i * d.cols + j) = 0 ∨ d.cells (i * d.cols + j) = 1) :
    nb_ind d i j 0 0 = d.cells (i * d.cols + j) := by
  unfold nb_ind
  rcases hcell with h | h <;>
    simp [wrap_mod_self hi0 hi1, wrap_mod_self hj0 hj1, h]

/-! ### Characterising the per-cell pass (`cols_loop`, `rows_loop`) -/

/-- Positions the remaining inner loop does not write are left unchanged. -/
theorem cols_loop_get_other (d : gol_data) (i : Int) :
    ∀ (fuel : Nat) (j : Int) (nw : Int → Int) (tl : Int) (x : Int),
      (∀ j', j ≤ j' → j' < j + (fuel : Int) → x ≠ i * d.cols + j') →
      (cols_loop d i j fuel nw tl).1 x = nw x := by
  intro fuel
  induction fuel with
  | zero => intro j nw tl x _; rfl
  | succ n ih =>
    intro j nw tl x h
    simp only [cols_loop]
    rw [update_world_eq]
    rw [ih (j + 1) _ _ x ?_]
    · exact awrite_other _ _ (h j (le_refl j) (by push_cast; omega))
    · intro j' h1 h2
      exact h j' (by omega) (by push_cast at h2 ⊢; omega)

/-- Each cell the inner loop writes receives exactly `next_cell` of the
(unchanged) current buffer. -/
theorem cols_loop_get (d : gol_data) (i : Int) :
    ∀ (fuel : Nat) (j : Int) (nw : Int → Int) (tl : Int) (j' : Int),
      j ≤ j' → j' < j + (fuel : Int) →
      (cols_loop d i j fuel nw tl).1 (i * d.cols + j') = next_cell d i j' := by
  intro fuel
  induction fuel with
  | zero => intro j nw tl j' h1 h2; exfalso; push_cast at h2; omega
  | succ n ih =>
    intro j nw tl j' h1 h2
    simp only [cols_loop]
    rw [update_world_eq]
    by_cases hj : j' = j
    · subst hj
      rw [cols_loop_get_other d i n (j' + 1) _ _ _ ?_]
      · exact awrite_same _ _ _
      · intro j'' hle _ heq
        have : j' = j'' := by
          have := add_left_cancel heq
          omega
        omega
    · exact ih (j + 1) _ _ j' (by omega) (by push_cast at h2 ⊢; omega)

/-- The inner loop adds to `total_live` exactly the sum of the next states
of the cells it writes. -/
theorem cols_loop_live (d : gol_data) (i : Int) :
    ∀ (fuel : Nat) (j : Int) (nw : Int → Int) (tl : Int),
      (cols_loop d i j fuel nw tl).2 =
        tl + ∑ m ∈ Finset.range fuel, next_cell d i (j + (m : Int)) := by
  intro fuel
  induction fuel with
  | zero => intro j nw tl; simp [cols_loop]
  | succ n ih =>
    intro j nw tl
    simp only [cols_loop]
    rw [update_world_eq]
    rw [ih (j + 1) _ _]
    rw [Finset.sum_range_succ']
    have h0 : next_cell d i (j + ((0 : Nat) : Int)) =
        update_val (d.cells (i * d.cols + j))
          (count_neighbors d i j - d.cells (i * d.cols + j)) := by
      simp [next_cell]
    have hsum : (∑ m ∈ Finset.range n, next_cell d i (j + ((m + 1 : Nat) : Int))) =
        ∑ m ∈ Finset.range n, next_cell d i (j + 1 + (m : Int)) := by
      refine Finset.sum_congr rfl fun m _ => ?_
      congr 1
      push_cast
      ring
    rw [hsum, h0]
    ring

/-- Positions the remaining outer loop does not write are left unchanged. -/
theorem rows_loop_get_other (d : gol_data) :
    ∀ (fuel : Nat) (i : Int) (nw : Int → Int) (tl : Int) (x : Int),
      (∀ i' j', i ≤ i' → i' < i + (fuel : Int) → 0 ≤ j' → j' < d.cols →
        x ≠ i' * d.cols + j') →
      (rows_loop d i fuel nw tl).1 x = nw x := by
  intro fuel
  induction fuel with
  | zero => intro i nw tl x _; rfl
  | succ n ih =>
    intro i nw tl x h
    simp only [rows_loop]
    rw [ih (i + 1) _ _ x ?_]
    · refine cols_loop_get_other d i d.cols.toNat 0 _ _ x ?_
      intro j' h1 h2
      exact h i j' (le_refl i) (by push_cast; omega) h1 (by omega)
    · intro i' j' h1 h2 h3 h4
      exact h i' j' (by omega) (by push_cast at h2 ⊢; omega) h3 h4

/-- Each in-range cell ends up holding `next_cell` of the current buffer
after the outer loop runs. -/
theorem rows_loop_get (d : gol_data) :
    ∀ (fuel : Nat) (i : Int) (nw : Int → Int) (tl : Int) (i' j' : Int),
      i ≤ i' → i' < i + (fuel : Int) → 0 ≤ j' → j' < d.cols →
      (rows_loop d i fuel nw tl).1 (i' * d.cols + j') = next_cell d i' j' := by
  intro fuel
  induction fuel with
  | zero => intro i nw tl i' j' h1 h2 _ _; exfalso; push_cast at h2; omega
  | succ n ih =>
    intro i nw tl i' j' h1 h2 hj0 hj1
    simp only [rows_loop]
    by_cases hi : i' = i
    · subst hi
      rw [rows_loop_get_other d n (i' + 1) _ _ _ ?_]
      · exact cols_loop_get d i' d.cols.toNat 0 _ _ j' hj0 (by omega)
      · intro i'' j'' hle _ hj0' hj1' heq
        have := flat_idx_inj hj0 hj1 hj0' hj1' heq
        omega
    · exact ih (i + 1) _ _ i' j' (by omega) (by push_cast at h2 ⊢; omega) hj0 hj1

/-- After the outer loop, `total_live` has gained the sum of all the next
states it stored. -/
theorem rows_loop_live (d : gol_data) :
    ∀ (fuel : Nat) (i : Int) (nw : Int → Int) (tl : Int),
      (rows_loop d i fuel nw tl).2 =
        tl + ∑ m ∈ Finset.range fuel, ∑ k ∈ Finset.range d.cols.toNat,
          next_cell d (i + (m : Int)) (k : Int) := by
  intro fuel
  induction fuel with
  | zero => intro i nw tl; simp [rows_loop]
  | succ n ih =>
    intro i nw tl
    simp only [rows_loop]
    rw [ih (i + 1) _ _]
    rw [cols_loop_live d i d.cols.toNat 0 _ _]
    rw [Finset.sum_range_succ']
    have h0 : (∑ k ∈ Finset.range d.cols.toNat,
        next_cell d (i + ((0 : Nat) : Int)) (k : Int)) =
        ∑ k ∈ Finset.range d.cols.toNat, next_cell d i (0 + (k : Int)) := by
      refine Finset.sum_congr rfl fun k _ => ?_
      congr 1 <;> push_cast <;> ring
    have hsum : (∑ m ∈ Finset.range n, ∑ k ∈ Finset.range d.cols.toNat,
        next_cell d (i + ((m + 1 : Nat) : Int)) (k : Int)) =
        ∑ m ∈ Finset.range n, ∑ k ∈ Finset.range d.cols.toNat,
          next_cell d (i + 1 + (m : Int)) (k : Int) := by
      refine Finset.sum_congr rfl fun m _ => ?_
      refine Finset.sum_congr rfl fun k _ => ?_
      congr 1
      push_cast
      ring
    rw [hsum, h0]
    ring

/-! ### Characterising one round (`gol_round`) -/

/-- After the pass, each in-range cell of the newly-current buffer holds the
`next_cell` value computed from the previous generation only: the spare
buffer `s.new_world` the pass wrote into does not appear on the right-hand
side, so its prior contents are irrelevant (it is never read). -/
theorem gol_round_cells (s : play_state) {i j : Int}
    (hi0 : 0 ≤ i) (hi1 : i < s.data.rows) (hj0 : 0 ≤ j) (hj1 : j < s.data.cols) :
    (gol_round s).data.cells (i * s.data.cols + j) = next_cell s.data i j := by
  exact rows_loop_get s.data s.data.rows.toNat 0 _ _ i j hi0
    (by omega) hj0 hj1

/-- The swap is a pointer exchange: the previous generation's buffer becomes
the spare buffer, unmodified. -/
theorem gol_round_swap (s : play_state) : (gol_round s).new_world = s.data.cells := rfl

theorem gol_round_rows (s : play_state) : (gol_round s).data.rows = s.data.rows := rfl

theorem gol_round_cols (s : play_state) : (gol_round s).data.cols = s.data.cols := rfl

theorem gol_round_iters (s : play_state) : (gol_round s).data.iters = s.data.iters := rfl

theorem gol_round_current_round (s : play_state) :
    (gol_round s).data.current_round = s.data.current_round + 1 := rfl

/-- `total_live` after a round is the sum over all cells of the stored next
states (having been reset to 0 at the start of the round). -/
theorem gol_round_live (s : play_state) :
    (gol_round s).total_live =
      ∑ m ∈ Finset.range s.data.rows.toNat,
        ∑ k ∈ Finset.range s.data.cols.toNat,
          next_cell s.data (m : Int) (k : Int) := by
  show (rows_loop s.data 0 s.data.rows.toNat s.new_world 0).2 = _
  rw [rows_loop_live]
  simp

theorem next_cell_cases (d : gol_data) (i j : Int) :
    next_cell d i j = 0 ∨ next_cell d i j = 1 :=
  update_val_cases _ _

/-! ### Counting bridges -/

theorem card_filter_eq_sum (n : Nat) (p : Nat → Prop) [DecidablePred p] :
    (Int.ofNat ((Finset.range n).filter p).card) =
      ∑ x ∈ Finset.range n, (if p x then (1 : Int) else 0) := by
  rw [Int.ofNat_eq_coe, Finset.card_filter]
  push_cast
  rfl

theorem toNat_mul_nonneg {a b : Int} (ha : 0 ≤ a) (hb : 0 ≤ b) :
    (a * b).toNat = a.toNat * b.toNat := by
  obtain ⟨m, rfl⟩ := Int.eq_ofNat_of_zero_le ha
  obtain ⟨n, rfl⟩ := Int.eq_ofNat_of_zero_le hb
  rw [← Nat.cast_mul]
  rw [Int.toNat_natCast, Int.toNat_natCast, Int.toNat_natCast]

/-- A sum over the flat index range splits into a row-by-row double sum. -/
theorem sum_range_mul (R C : Nat) (h : Nat → Int) :
    ∑ x ∈ Finset.range (R * C), h x =
      ∑ i ∈ Finset.range R, ∑ j ∈ Finset.range C, h (i * C + j) := by
  induction R with
  | zero => simp
  | succ R ih =>
    rw [Nat.succ_mul]
    rw [Finset.range_eq_Ico,
      ← Finset.sum_Ico_consecutive _ (Nat.zero_le (R * C)) (Nat.le_add_right (R * C) C)]
    rw [← Finset.range_eq_Ico, ih]
    rw [Finset.sum_Ico_eq_sum_range]
    simp only [Nat.add_sub_cancel_left]
    rw [Finset.sum_range_succ]

/-- After one completed round the `total_live` counter equals the number of
alive cells actually present in the newly-current buffer. -/
theorem gol_round_live_exact (s : play_state)
    (hr : 1 ≤ s.data.rows) (hc : 1 ≤ s.data.cols) :
    (gol_round s).total_live = live_cell_count (gol_round s).data := by
  have hrows : (gol_round s).data.rows = s.data.rows := rfl
  have hcols : (gol_round s).data.cols = s.data.cols := rfl
  unfold live_cell_count
  rw [hrows, hcols, card_filter_eq_sum,
    toNat_mul_nonneg (by omega) (by omega), sum_range_mul, gol_round_live]
  refine Finset.sum_congr rfl fun i hi => Finset.sum_congr rfl fun j hj => ?_
  rw [Finset.mem_range] at hi hj
  have hcast : (Int.ofNat (i * s.data.cols.toNat + j)) =
      (i : Int) * s.data.cols + (j : Int) := by
    rw [Int.ofNat_eq_coe]
    push_cast [Int.toNat_of_nonneg (show (0:Int) ≤ s.data.cols by omega)]
    ring
  rw [hcast, gol_round_cells s (by omega) (by omega) (by omega) (by omega)]
  rcases next_cell_cases s.data (i : Int) (j : Int) with h | h <;> rw [h] <;> simp

/-! ### The round loop -/

theorem play_iters_succ (n : Nat) (s : play_state) :
    play_iters (n + 1) s = play_iters n (gol_round s) := rfl

theorem play_iters_eq_iterate (n : Nat) (s : play_state) :
    play_iters n s = gol_round^[n] s := by
  induction n generalizing s with
  | zero => rfl
  | succ n ih => rw [play_iters_succ, ih, Function.iterate_succ_apply]

theorem play_iters_succ' (n : Nat) (s : play_state) :
    play_iters (n + 1) s = gol_round (play_iters n s) := by
  rw [play_iters_eq_iterate, play_iters_eq_iterate, Function.iterate_succ_apply']

theorem play_iters_dims (n : Nat) (s : play_state) :
    (play_iters n s).data.rows = s.data.rows ∧
    (play_iters n s).data.cols = s.data.cols ∧
    (play_iters n s).data.iters = s.data.iters := by
  induction n generalizing s with
  | zero => exact ⟨rfl, rfl, rfl⟩
  | succ n ih =>
    rw [play_iters_succ]
    exact ih (gol_round s)

/-! ### Dead grids -/

theorem count_neighbors_dead (d : gol_data) (hr : 1 ≤ d.rows) (hc : 1 ≤ d.cols)
    (hdead : ∀ x, 0 ≤ x → x < d.rows * d.cols → d.cells x = 0) (i j : Int) :
    count_neighbors d i j = 0 := by
  rw [count_neighbors_expand]
  have hz : ∀ l k : Int, nb_ind d i j l k = 0 := by
    intro l k
    unfold nb_ind
    have h1 := wrap_mod_range (i + l) (show (0:Int) < d.rows by omega)
    have h2 := wrap_mod_range (j + k) (show (0:Int) < d.cols by omega)
    have hidx := flat_idx_range h1.1 h1.2 h2.1 h2.2
    rw [hdead _ hidx.1 hidx.2]
    norm_num
  simp [hz]

theorem next_cell_dead (d : gol_data) (hr : 1 ≤ d.rows) (hc : 1 ≤ d.cols)
    (hdead : ∀ x, 0 ≤ x → x < d.rows * d.cols → d.cells x = 0) {i j : Int}
    (hi0 : 0 ≤ i) (hi1 : i < d.rows) (hj0 : 0 ≤ j) (hj1 : j < d.cols) :
    next_cell d i j = 0 := by
  unfold next_cell
  have hidx := flat_idx_range hi0 hi1 hj0 hj1
  rw [count_neighbors_dead d hr hc hdead i j, hdead _ hidx.1 hidx.2]
  norm_num [update_val]

/-! ### The initialisation buffers -/

/-- A fold of constant-value stores leaves every position either holding the
stored value or what it held before. -/
theorem foldl_awrite_mem {α : Type} (L : List α) (f : α → Int) (v : Int)
    (c0 : Int → Int) (x : Int) :
    (L.foldl (fun c p => awrite c (f p) v) c0) x = v ∨
    (L.foldl (fun c p => awrite c (f p) v) c0) x = c0 x := by
  induction L generalizing c0 with
  | nil => right; rfl
  | cons p L ih =>
    simp only [List.foldl_cons]
    rcases ih (awrite c0 (f p) v) with h | h
    · left; exact h
    · rw [h]
      by_cases hx : x = f p
      · left; rw [hx, awrite_same]
      · right; rw [awrite_other _ _ hx]

/-- The zero-fill loop of `init_game_data_from_args` stores 0 at every
index of the allocated region. -/
theorem zero_fill_get (n : Nat) (mem : Int → Int) (x : Int)
    (hx0 : 0 ≤ x) (hx1 : x < (n : Int)) :
    ((List.range n).foldl (fun c i => awrite c (Int.ofNat i) 0) mem) x = 0 := by
  induction n with
  | zero => exfalso; push_cast at hx1; omega
  | succ n ih =>
    rw [List.range_succ, List.foldl_append, List.foldl_cons, List.foldl_nil]
    by_cases hx : x = (n : Int)
    · rw [Int.ofNat_eq_coe, ← hx, awrite_same]
    · rw [Int.ofNat_eq_coe, awrite_other _ _ hx]
      refine ih ?_
      push_cast at hx1
      omega

/-! ### The claims -/

/-- C1: For every pair (current_state, live_neighbors) with current_state in
{0, 1} and live_neighbors in 0..8, the per-cell transition performed by
`update_world` computes exactly Conway's rule: an alive cell with 2 or 3
live neighbors stays alive, an alive cell with any other neighbor count
dies, a dead cell with exactly 3 live neighbors becomes alive, and a dead
cell otherwise stays dead. -/
theorem C1_transition_rule (data : gol_data) (array : Int → Int)
    (total_live neighbors i j : Int)
    (hcell : data.cells (i * data.cols + j) = 0 ∨ data.cells (i * data.cols + j) = 1)
    (h0 : 0 ≤ neighbors) (h8 : neighbors ≤ 8) :
    (update_world data array total_live neighbors i j).1 (i * data.cols + j) =
      next_state_spec (data.cells (i * data.cols + j)) neighbors := by
  rw [update_world_eq]
  simp only [Prod.fst]
  rw [awrite_same]
  rcases hcell with h | h <;> rw [h] <;> simp [update_val, next_state_spec]

/-- C1 witness: an alive cell with 3 live neighbors stays alive. -/
theorem C1_transition_rule_witness :
    (update_world ⟨3, 3, 1, 0, fun _ => 1, 0⟩ (fun _ => 0) 0 3 0 0).1
        ((0 : Int) * (3 : Int) + 0) =
      next_state_spec ((fun _ => (1 : Int)) ((0 : Int) * (3 : Int) + 0)) 3 :=
  C1_transition_rule ⟨3, 3, 1, 0, fun _ => 1, 0⟩ (fun _ => 0) 0 3 0 0
    (Or.inr rfl) (by decide) (by decide)

/-- C2: During one round's per-cell pass, every in-range cell of the buffer
produced for the next generation holds `next_cell` of the current buffer — a
value that depends only on the prior generation (`next_cell data i j` reads
nothing but `data.cells`), so the result is the same whatever the spare
`new_world` buffer and `total_live` counter held beforehand (the next buffer
is written, never read); and the current buffer comes through the round
unmodified, merely handed over as the new spare by the pointer exchange that
happens only after all cells are computed. -/
theorem C2_buffer_discipline (d : gol_data) (nw nw' : Int → Int) (tl tl' : Int)
    {i j : Int} (hi0 : 0 ≤ i) (hi1 : i < d.rows) (hj0 : 0 ≤ j) (hj1 : j < d.cols) :
    (gol_round ⟨d, nw, tl⟩).data.cells (i * d.cols + j) = next_cell d i j ∧
    (gol_round ⟨d, nw, tl⟩).data.cells (i * d.cols + j) =
      (gol_round ⟨d, nw', tl'⟩).data.cells (i * d.cols + j) ∧
    (gol_round ⟨d, nw, tl⟩).new_world = d.cells :=
  ⟨gol_round_cells ⟨d, nw, tl⟩ hi0 hi1 hj0 hj1,
   (gol_round_cells ⟨d, nw, tl⟩ hi0 hi1 hj0 hj1).trans
     (gol_round_cells ⟨d, nw', tl'⟩ hi0 hi1 hj0 hj1).symm,
   rfl⟩

/-- C2 witness: a 1×1 grid, two different junk spare buffers. -/
theorem C2_buffer_discipline_witness :
    (gol_round ⟨⟨1, 1, 1, 0, fun _ => 0, 0⟩, fun _ => 7, 0⟩).data.cells
        ((0 : Int) * (1 : Int) + 0) = next_cell ⟨1, 1, 1, 0, fun _ => 0, 0⟩ 0 0 ∧
    (gol_round ⟨⟨1, 1, 1, 0, fun _ => 0, 0⟩, fun _ => 7, 0⟩).data.cells
        ((0 : Int) * (1 : Int) + 0) =
      (gol_round ⟨⟨1, 1, 1, 0, fun _ => 0, 0⟩, fun _ => 9, 5⟩).data.cells
        ((0 : Int) * (1 : Int) + 0) ∧
    (gol_round ⟨⟨1, 1, 1, 0, fun _ => 0, 0⟩, fun _ => 7, 0⟩).new_world =
      (⟨1, 1, 1, 0, fun _ => 0, 0⟩ : gol_data).cells :=
  C2_buffer_discipline ⟨1, 1, 1, 0, fun _ => 0, 0⟩ (fun _ => 7) (fun _ => 9) 0 5
    (by decide) (by decide) (by decide) (by decide)

/-- C3: For every 0/1-valued grid and in-range cell, scanning all 9 offsets
of the 3×3 toroidal block (`count_neighbors`) and subtracting the center
cell's own state — exactly what `play_gol` does — equals the count over the
8 non-center toroidally-wrapped neighbor offsets (the spec's
`count_live_neighbors`), and that value lies in 0..8. -/
theorem C3_neighbor_count_refinement (d : gol_data) {i j : Int}
    (hi0 : 0 ≤ i) (hi1 : i < d.rows) (hj0 : 0 ≤ j) (hj1 : j < d.cols)
    (hcells : ∀ x, 0 ≤ x → x < d.rows * d.cols → d.cells x = 0 ∨ d.cells x = 1) :
    count_neighbors d i j - d.cells (i * d.cols + j) =
      count_live_neighbors_spec d i j ∧
    0 ≤ count_live_neighbors_spec d i j ∧ count_live_neighbors_spec d i j ≤ 8 := by
  have hidx := flat_idx_range hi0 hi1 hj0 hj1
  have hcell := hcells (i * d.cols + j) hidx.1 hidx.2
  have e1 := count_neighbors_expand d i j
  have e2 := count_live_neighbors_spec_expand d i j
  have hcenter := nb_ind_center d hi0 hi1 hj0 hj1 hcell
  refine ⟨?_, ?_, ?_⟩
  · rw [e1, e2, hcenter]; ring
  · have b1 := nb_ind_bounds d i j (-1) (-1)
    have b2 := nb_ind_bounds d i j (-1) 0
    have b3 := nb_ind_bounds d i j (-1) 1
    have b4 := nb_ind_bounds d i j 0 (-1)
    have b5 := nb_ind_bounds d i j 0 1
    have b6 := nb_ind_bounds d i j 1 (-1)
    have b7 := nb_ind_bounds d i j 1 0
    have b8 := nb_ind_bounds d i j 1 1
    rw [e2]; omega
  · have b1 := nb_ind_bounds d i j (-1) (-1)
    have b2 := nb_ind_bounds d i j (-1) 0
    have b3 := nb_ind_bounds d i j (-1) 1
    have b4 := nb_ind_bounds d i j 0 (-1)
    have b5 := nb_ind_bounds d i j 0 1
    have b6 := nb_ind_bounds d i j 1 (-1)
    have b7 := nb_ind_bounds d i j 1 0
    have b8 := nb_ind_bounds d i j 1 1
    rw [e2]; omega

/-- C3 witness: the 1×1 all-dead grid. -/
theorem C3_neighbor_count_refinement_witness :
    count_neighbors ⟨1, 1, 0, 0, fun _ => 0, 0⟩ 0 0 -
        (⟨1, 1, 0, 0, fun _ => 0, 0⟩ : gol_data).cells ((0 : Int) * (1 : Int) + 0) =
      count_live_neighbors_spec ⟨1, 1, 0, 0, fun _ => 0, 0⟩ 0 0 ∧
    0 ≤ count_live_neighbors_spec ⟨1, 1, 0, 0, fun _ => 0, 0⟩ 0 0 ∧
    count_live_neighbors_spec ⟨1, 1, 0, 0, fun _ => 0, 0⟩ 0 0 ≤ 8 :=
  C3_neighbor_count_refinement ⟨1, 1, 0, 0, fun _ => 0, 0⟩
    (by decide) (by decide) (by decide) (by decide) (fun x _ _ => Or.inl rfl)

/-- C4: The double-modulo normalisation `((v % m) + m) % m` (with C's
truncated `%`) yields an in-range coordinate for every offset in −1..1 and
every in-range row/column — indeed for any integer argument — and on a 3×3
grid whose only alive cell is (0,0), the live-neighbor count of cell (2,2)
(computed as `play_gol` does, 3×3 scan minus self, and as the spec words it,
8 non-center offsets) is 1. -/
theorem C4_wrap_normalisation :
    (∀ (rows row off : Int), 1 ≤ rows → 0 ≤ row → row < rows →
      -1 ≤ off → off ≤ 1 →
      0 ≤ wrap_mod (row + off) rows ∧ wrap_mod (row + off) rows < rows) ∧
    count_neighbors ⟨3, 3, 0, 0, fun x => if x = 0 then 1 else 0, 0⟩ 2 2 -
        (⟨3, 3, 0, 0, fun x => if x = 0 then 1 else 0, 0⟩ : gol_data).cells
          ((2 : Int) * (3 : Int) + 2) = 1 ∧
    count_live_neighbors_spec ⟨3, 3, 0, 0, fun x => if x = 0 then 1 else 0, 0⟩ 2 2 = 1 := by
  refine ⟨?_, by decide, by decide⟩
  intro rows row off h1 _ _ _ _
  exact wrap_mod_range (row + off) (by omega)

/-- C4 witness: wrapping offset −1 from row 0 on 3 rows stays in range. -/
theorem C4_wrap_normalisation_witness :
    0 ≤ wrap_mod ((0 : Int) + (-1)) 3 ∧ wrap_mod ((0 : Int) + (-1)) 3 < 3 :=
  C4_wrap_normalisation.1 3 0 (-1) (by decide) (by decide) (by decide)
    (by decide) (by decide)

/-- C5: After every completed round, the maintained live-cell count equals
the exact number of alive cells present in the newly-current buffer, for
every grid state and every round (the counter is reset to 0 at the start of
each round and recomputed, so no stale count survives). -/
theorem C5_live_count_exact (s : play_state) (n : Nat)
    (hr : 1 ≤ s.data.rows) (hc : 1 ≤ s.data.cols) :
    (play_iters (n + 1) s).total_live =
      live_cell_count (play_iters (n + 1) s).data := by
  rw [play_iters_succ']
  refine gol_round_live_exact (play_iters n s) ?_ ?_
  · rw [(play_iters_dims n s).1]; exact hr
  · rw [(play_iters_dims n s).2.1]; exact hc

/-- C5 witness: one round on a 1×1 grid with a single alive cell. -/
theorem C5_live_count_exact_witness :
    (play_iters (0 + 1) ⟨⟨1, 1, 1, 0, fun _ => 1, 0⟩, fun _ => 0, 1⟩).total_live =
      live_cell_count
        (play_iters (0 + 1) ⟨⟨1, 1, 1, 0, fun _ => 1, 0⟩, fun _ => 0, 1⟩).data :=
  C5_live_count_exact ⟨⟨1, 1, 1, 0, fun _ => 1, 0⟩, fun _ => 0, 1⟩ 0
    (by decide) (by decide)

/-- C7: Running the program's round loop (`play_gol`, which executes the
body `iters` times with no early termination) produces the same final state
as iterating the single-round advance `gol_round` N times sequentially, for
every N ≥ 0; N = 0 leaves the state unchanged since `gol_round^[0]` is the
identity. -/
theorem C7_run_composition (n : Nat) (s : play_state)
    (h : s.data.iters = (n : Int)) :
    play_gol s = gol_round^[n] s := by
  unfold play_gol
  rw [h, Int.toNat_natCast]
  exact play_iters_eq_iterate n s

/-- C7 witness: a 1×1 grid configured for 2 rounds. -/
theorem C7_run_composition_witness :
    play_gol ⟨⟨1, 1, 2, 0, fun _ => 1, 0⟩, fun _ => 0, 1⟩ =
      gol_round^[2] ⟨⟨1, 1, 2, 0, fun _ => 1, 0⟩, fun _ => 0, 1⟩ :=
  C7_run_composition 2 ⟨⟨1, 1, 2, 0, fun _ => 1, 0⟩, fun _ => 0, 1⟩ rfl

/-- C8: For every grid (rows ≥ 1, cols ≥ 1) whose in-range cells are all
dead, and every number of rounds, every in-range cell is still dead after
running the rounds: the empty grid is a fixed point of the round advance. -/
theorem C8_dead_grid_fixed_point (s : play_state) (n : Nat)
    (hr : 1 ≤ s.data.rows) (hc : 1 ≤ s.data.cols)
    (hdead : ∀ x, 0 ≤ x → x < s.data.rows * s.data.cols → s.data.cells x = 0) :
    ∀ x, 0 ≤ x → x < s.data.rows * s.data.cols →
      (play_iters n s).data.cells x = 0 := by
  induction n generalizing s with
  | zero => exact hdead
  | succ n ih =>
    rw [play_iters_succ]
    intro x hx0 hx1
    refine ih (gol_round s) hr hc ?_ x hx0 hx1
    intro y hy0 hy1
    rw [gol_round_rows, gol_round_cols] at hy1
    obtain ⟨i, j, hi0, hi1, hj0, hj1, rfl⟩ := flat_idx_decomp (by omega) hy0 hy1
    rw [gol_round_cells s hi0 hi1 hj0 hj1]
    exact next_cell_dead s.data hr hc hdead hi0 hi1 hj0 hj1

/-- C8 witness: three rounds on an all-dead 2×2 grid leave cell 0 dead. -/
theorem C8_dead_grid_fixed_point_witness :
    (play_iters 3 ⟨⟨2, 2, 3, 0, fun _ => 0, 0⟩, fun _ => 0, 0⟩).data.cells 0 = 0 :=
  C8_dead_grid_fixed_point ⟨⟨2, 2, 3, 0, fun _ => 0, 0⟩, fun _ => 0, 0⟩ 3
    (by decide) (by decide) (fun _ _ _ => rfl) 0 (by decide) (by decide)

/-- Projection helper: the cell buffer `init_game_data_from_args` builds is
the zero-fill of the allocated region followed by the seed writes. -/
theorem init_cells_eq (output_mode rows cols iters file_total_live : Int)
    (coords : List (Int × Int)) (mem : Int → Int) :
    (init_game_data_from_args output_mode rows cols iters file_total_live
        coords mem).1.cells =
      (coords.take file_total_live.toNat).foldl
        (fun c p => awrite c (p.1 * cols + p.2) 1)
        ((List.range (rows * cols).toNat).foldl
          (fun c i => awrite c (Int.ofNat i) 0) mem) := rfl

/-- C9: Every element of the allocated cell region is exactly 0 or 1 after
construction (all cells zeroed, then seed coordinates set to 1), after any
single round advance (the pass writes only `update_val`, which is 0 or 1,
into every in-range position of the next buffer), and hence after every
positive number of rounds. -/
theorem C9_cells_zero_or_one :
    (∀ (output_mode rows cols iters file_total_live : Int)
        (coords : List (Int × Int)) (mem : Int → Int) (x : Int),
        0 ≤ x → x < rows * cols →
        ((init_game_data_from_args output_mode rows cols iters file_total_live
            coords mem).1.cells x = 0 ∨
         (init_game_data_from_args output_mode rows cols iters file_total_live
            coords mem).1.cells x = 1)) ∧
    (∀ (s : play_state) (i j : Int),
        0 ≤ i → i < s.data.rows → 0 ≤ j → j < s.data.cols →
        ((gol_round s).data.cells (i * s.data.cols + j) = 0 ∨
         (gol_round s).data.cells (i * s.data.cols + j) = 1)) ∧
    (∀ (s : play_state) (n : Nat) (x : Int),
        1 ≤ s.data.rows → 1 ≤ s.data.cols →
        0 ≤ x → x < s.data.rows * s.data.cols →
        ((play_iters (n + 1) s).data.cells x = 0 ∨
         (play_iters (n + 1) s).data.cells x = 1)) := by
  refine ⟨?_, ?_, ?_⟩
  · intro o rows cols iters f coords mem x hx0 hx1
    rw [init_cells_eq]
    rcases foldl_awrite_mem (coords.take f.toNat) (fun p => p.1 * cols + p.2) 1
        ((List.range (rows * cols).toNat).foldl
          (fun c i => awrite c (Int.ofNat i) 0) mem) x with h | h
    · right; exact h
    · left
      rw [h]
      exact zero_fill_get (rows * cols).toNat mem x hx0 (by omega)
  · intro s i j hi0 hi1 hj0 hj1
    rw [gol_round_cells s hi0 hi1 hj0 hj1]
    exact next_cell_cases s.data i j
  · intro s n x hr hc hx0 hx1
    rw [play_iters_succ']
    have hd := play_iters_dims n s
    have hr' : 1 ≤ (play_iters n s).data.rows := by rw [hd.1]; exact hr
    have hc' : 1 ≤ (play_iters n s).data.cols := by rw [hd.2.1]; exact hc
    have hx1' : x < (play_iters n s).data.rows * (play_iters n s).data.cols := by
      rw [hd.1, hd.2.1]; exact hx1
    obtain ⟨i, j, hi0, hi1, hj0, hj1, rfl⟩ := flat_idx_decomp (by omega) hx0 hx1'
    rw [gol_round_cells (play_iters n s) hi0 hi1 hj0 hj1]
    exact next_cell_cases (play_iters n s).data i j

/-- C9 witness: one seeded cell on a 1×1 grid over junk memory. -/
theorem C9_cells_zero_or_one_witness :
    (init_game_data_from_args 0 1 1 0 1 [((0 : Int), (0 : Int))]
        (fun _ => 5)).1.cells 0 = 0 ∨
    (init_game_data_from_args 0 1 1 0 1 [((0 : Int), (0 : Int))]
        (fun _ => 5)).1.cells 0 = 1 :=
  C9_cells_zero_or_one.1 0 1 1 0 1 [(0, 0)] (fun _ => 5) 0 (by decide) (by decide)

/-- C6 counterexample: the claim says construction fails (with
`InvalidDimensions`) when `rows ≤ 0`; on the code, constructing with
`rows = -3` (and every file read succeeding) returns the success code 0 —
there is no failure at all, so the implication "rows ≤ 0 implies a non-zero
(failing) return" is false at this input. -/
theorem C6_counterexample :
    ¬ ((-3 : Int) ≤ 0 →
      (init_game_data_from_args 0 (-3) 4 5 0 [] (fun _ => 37)).2.2 ≠ 0) := by
  intro h
  exact h (by decide) rfl

/-- C6 (amended): given that every file operation succeeds,
`init_game_data_from_args` performs no validation at all: whatever the
dimensions (even non-positive), the seed coordinates (even out of range) and
the iteration count (even negative), it returns the success code 0 and never
surfaces an `InvalidDimensions`/`OutOfRange`/`InvalidArgument`-style
failure; its only failure paths are file-I/O failures (open/read/close). -/
theorem C6_no_validation (output_mode rows cols iters file_total_live : Int)
    (coords : List (Int × Int)) (mem : Int → Int) :
    (init_game_data_from_args output_mode rows cols iters file_total_live
        coords mem).2.2 = 0 := rfl

/-- The configuration of C10's duplicate-seed example: a 1×1 grid, 0
iterations, a declared live count of 2 with the seed list naming cell (0,0)
twice. -/
def dup_seed_init : gol_data × Int × Int :=
  init_game_data_from_args 0 1 1 0 2 [((0 : Int), (0 : Int)), (0, 0)] (fun _ => 0)

def dup_seed_state : play_state :=
  ⟨dup_seed_init.1, fun _ => 0, dup_seed_init.2.1⟩

/-- C10: With a non-positive configured iteration count, `play_gol` performs
no update at all — the whole simulation state (grid, round index, live
count) is returned unchanged; in particular on the duplicate-seed example
the reported live count stays at the declared seed count 2, read from the
configuration and never recomputed, while the grid actually contains exactly
1 alive cell. -/
theorem C10_nonpositive_iters_no_op :
    (∀ s : play_state, s.data.iters ≤ 0 → play_gol s = s) ∧
    play_gol dup_seed_state = dup_seed_state ∧
    dup_seed_state.total_live = 2 ∧
    live_cell_count dup_seed_state.data = 1 ∧
    dup_seed_state.data.current_round = 0 := by
  have h1 : ∀ s : play_state, s.data.iters ≤ 0 → play_gol s = s := by
    intro s h
    unfold play_gol
    rw [Int.toNat_of_nonpos h]
    rfl
  refine ⟨h1, h1 dup_seed_state (by decide), rfl, ?_, rfl⟩
  decide

/-- C10 witness: a negative iteration count also runs zero rounds. -/
theorem C10_nonpositive_iters_no_op_witness :
    play_gol ⟨⟨2, 2, -1, 0, fun _ => 1, 0⟩, fun _ => 0, 4⟩ =
      ⟨⟨2, 2, -1, 0, fun _ => 1, 0⟩, fun _ => 0, 4⟩ :=
  C10_nonpositive_iters_no_op.1 ⟨⟨2, 2, -1, 0, fun _ => 1, 0⟩, fun _ => 0, 4⟩
    (by decide)
